import Mathlib

/-!
Verification of the core game logic of the games-platform repository
(roulette wheel + memotest memory game).

The TypeScript sources are shallowly embedded:
JavaScript numbers used as angles are modelled by exact rationals `ℚ`
(the algorithms only add, subtract, divide and floor, so the rational
model tracks the source expression-for-expression); array indices,
counters and scores are modelled by `ℤ`/`ℕ`; JavaScript `%` (truncated
remainder) is modelled explicitly; `Record<string, T>` objects are
modelled by association lists in key-insertion order, matching the
iteration order of string-keyed JavaScript objects.
-/

namespace JsNum

/-- Truncation toward zero of a rational, as used by the JavaScript `%`
operator on numbers. -/
def ratTrunc (q : ℚ) : ℤ := if 0 ≤ q then ⌊q⌋ else ⌈q⌉

/-- JavaScript remainder `a % b` on numbers: the remainder has the sign
of the dividend (truncated division). -/
def jsMod (a b : ℚ) : ℚ := a - b * ratTrunc (a / b)

theorem jsMod_nonneg_bounds {a b : ℚ} (hb : 0 < b) (ha : 0 ≤ a) :
    0 ≤ jsMod a b ∧ jsMod a b < b := by
  have hq : 0 ≤ a / b := div_nonneg ha hb.le
  have hfl : (ratTrunc (a / b) : ℚ) = ⌊a / b⌋ := by
    simp [ratTrunc, hq]
  constructor
  · have h1 : (⌊a / b⌋ : ℚ) ≤ a / b := Int.floor_le _
    have : (⌊a / b⌋ : ℚ) * b ≤ (a / b) * b := by
      exact mul_le_mul_of_nonneg_right h1 hb.le
    rw [div_mul_cancel₀ a hb.ne'] at this
    simp only [jsMod, hfl]
    nlinarith
  · have h2 : a / b < (⌊a / b⌋ : ℚ) + 1 := Int.lt_floor_add_one _
    have : (a / b) * b < ((⌊a / b⌋ : ℚ) + 1) * b := by
      exact mul_lt_mul_of_pos_right h2 hb
    rw [div_mul_cancel₀ a hb.ne'] at this
    simp only [jsMod, hfl]
    nlinarith

theorem jsMod_neg_bounds {a b : ℚ} (hb : 0 < b) (ha : a < 0) :
    -b < jsMod a b ∧ jsMod a b ≤ 0 := by
  have hq : a / b < 0 := div_neg_of_neg_of_pos ha hb
  have hfl : (ratTrunc (a / b) : ℚ) = ⌈a / b⌉ := by
    simp [ratTrunc, not_le.mpr hq]
  constructor
  · have h2 : (⌈a / b⌉ : ℚ) - 1 < a / b := by
      have := Int.ceil_lt_add_one (a / b)
      have h3 := Int.le_ceil (a / b)
      linarith
    have : ((⌈a / b⌉ : ℚ) - 1) * b < (a / b) * b := mul_lt_mul_of_pos_right h2 hb
    rw [div_mul_cancel₀ a hb.ne'] at this
    simp only [jsMod, hfl]
    nlinarith
  · have h1 : a / b ≤ (⌈a / b⌉ : ℚ) := Int.le_ceil _
    have : (a / b) * b ≤ (⌈a / b⌉ : ℚ) * b := mul_le_mul_of_nonneg_right h1 hb.le
    rw [div_mul_cancel₀ a hb.ne'] at this
    simp only [jsMod, hfl]
    nlinarith

end JsNum

namespace Roulette

open JsNum

/-- Embedding of `calculateWinningSegment` from
`src/apps/roulette/src/utils/roulette/physics.ts` (the revision with the
epsilon guard, lines 502-523): normalize the wheel angle to [0,360),
convert to the angle under the top marker, divide by the segment size
with a small epsilon, and reduce modulo the number of segments.
JavaScript `%` on the integral values `Math.floor(...)` and
`numSegments` is `Int.tmod`. -/
def calculateWinningSegment (finalAngleDeg : ℚ) (numSegments : ℤ) : ℤ :=
  if numSegments ≤ 0 then -1
  else
    let seg : ℚ := 360 / (numSegments : ℚ)
    let theta0 : ℚ := jsMod finalAngleDeg 360
    let theta : ℚ := if theta0 < 0 then theta0 + 360 else theta0
    let relative : ℚ := jsMod (360 - theta) 360
    let eps : ℚ := 1 / 1000000
    let idx : ℤ := Int.tmod ⌊(relative + eps) / seg⌋ numSegments
    if idx < 0 then idx + numSegments else idx

theorem theta_bounds (finalAngleDeg : ℚ) :
    0 ≤ (if jsMod finalAngleDeg 360 < 0 then jsMod finalAngleDeg 360 + 360
         else jsMod finalAngleDeg 360) ∧
    (if jsMod finalAngleDeg 360 < 0 then jsMod finalAngleDeg 360 + 360
         else jsMod finalAngleDeg 360) < 360 := by
  rcases le_or_lt 0 finalAngleDeg with ha | ha
  · obtain ⟨h1, h2⟩ := jsMod_nonneg_bounds (by norm_num : (0:ℚ) < 360) ha
    rw [if_neg (not_lt.mpr h1)]
    exact ⟨h1, h2⟩
  · obtain ⟨h1, h2⟩ := jsMod_neg_bounds (by norm_num : (0:ℚ) < 360) ha
    rcases lt_or_le (jsMod finalAngleDeg 360) 0 with hneg | hpos
    · rw [if_pos hneg]
      constructor <;> linarith
    · rw [if_neg (not_lt.mpr hpos)]
      constructor <;> linarith

theorem calculateWinningSegment_range (finalAngleDeg : ℚ) (numSegments : ℤ)
    (hn : 1 ≤ numSegments) :
    0 ≤ calculateWinningSegment finalAngleDeg numSegments ∧
    calculateWinningSegment finalAngleDeg numSegments < numSegments := by
  unfold calculateWinningSegment
  rw [if_neg (by omega : ¬ numSegments ≤ 0)]
  have hnQ : (0:ℚ) < (numSegments : ℚ) := by exact_mod_cast (by omega : (0:ℤ) < numSegments)
  have hseg : (0:ℚ) < 360 / (numSegments : ℚ) := by positivity
  obtain ⟨ht0, ht1⟩ := theta_bounds finalAngleDeg
  set theta : ℚ := if jsMod finalAngleDeg 360 < 0 then jsMod finalAngleDeg 360 + 360
      else jsMod finalAngleDeg 360 with htheta
  have hrel : 0 ≤ jsMod (360 - theta) 360 :=
    (jsMod_nonneg_bounds (by norm_num) (by linarith)).1
  have hpos : 0 ≤ (jsMod (360 - theta) 360 + 1 / 1000000) / (360 / (numSegments : ℚ)) := by
    apply div_nonneg _ hseg.le
    linarith
  have hflr : 0 ≤ ⌊(jsMod (360 - theta) 360 + 1 / 1000000) / (360 / (numSegments : ℚ))⌋ :=
    Int.floor_nonneg.mpr hpos
  have htm : Int.tmod ⌊(jsMod (360 - theta) 360 + 1 / 1000000) / (360 / (numSegments : ℚ))⌋
      numSegments =
      ⌊(jsMod (360 - theta) 360 + 1 / 1000000) / (360 / (numSegments : ℚ))⌋ % numSegments :=
    Int.tmod_eq_emod hflr (by omega)
  have hmod0 : 0 ≤ ⌊(jsMod (360 - theta) 360 + 1 / 1000000) / (360 / (numSegments : ℚ))⌋ %
      numSegments := Int.emod_nonneg _ (by omega)
  have hmod1 : ⌊(jsMod (360 - theta) 360 + 1 / 1000000) / (360 / (numSegments : ℚ))⌋ %
      numSegments < numSegments := Int.emod_lt_of_pos _ (by omega)
  simp only [htm]
  rw [if_neg (by omega)]
  exact ⟨hmod0, hmod1⟩

/-- Claim C2: for every final angle (negative and >360 included) and every
integer number of segments at least 1, `calculateWinningSegment` returns an
index in `[0, numSegments)`; for `numSegments ≤ 0` it returns the sentinel
`-1` instead of failing. -/
theorem claim_C2_winning_segment_contract :
    (∀ (finalAngleDeg : ℚ) (numSegments : ℤ), 1 ≤ numSegments →
      0 ≤ calculateWinningSegment finalAngleDeg numSegments ∧
      calculateWinningSegment finalAngleDeg numSegments < numSegments) ∧
    (∀ (finalAngleDeg : ℚ) (numSegments : ℤ), numSegments ≤ 0 →
      calculateWinningSegment finalAngleDeg numSegments = -1) := by
  constructor
  · intro a n hn
    exact calculateWinningSegment_range a n hn
  · intro a n hn
    unfold calculateWinningSegment
    rw [if_pos hn]

/-- Witness for C2 at concrete inputs: a negative angle of -45 degrees on a
6-segment wheel gives an index in range, and a zero segment count yields -1. -/
theorem claim_C2_winning_segment_contract_witness :
    (0 ≤ calculateWinningSegment (-45) 6 ∧ calculateWinningSegment (-45) 6 < 6) ∧
    calculateWinningSegment 725 0 = -1 :=
  ⟨claim_C2_winning_segment_contract.1 (-45) 6 (by norm_num),
   claim_C2_winning_segment_contract.2 725 0 (by norm_num)⟩

/-- Embedding of `addRecentSpinSegment` from
`src/apps/roulette/src/store/gameStore.ts` lines 41-51: append the new
index and drop the oldest entry once the history exceeds 3 entries. -/
def addRecentSpinSegment (recent : List ℕ) (segmentIndex : ℕ) : List ℕ :=
  let newHistory := recent ++ [segmentIndex]
  if 3 < newHistory.length then newHistory.tail else newHistory

/-- Embedding of the anti-repeat resolution inside `handleSpinComplete`
(`src/apps/roulette/src/hooks/useRouletteLogic.ts` lines 160-191): the
physically computed `winningIndex` is kept unless the history has at
least 2 entries and EVERY history entry equals it, in which case
`(winningIndex + 1) % numSegments` is used. -/
def resolveSpin (recent : List ℕ) (winningIndex : ℕ) (numSegments : ℕ) : ℕ :=
  if 2 ≤ recent.length ∧ recent.all (fun idx => idx = winningIndex) then
    (winningIndex + 1) % numSegments
  else
    winningIndex

/-- One completed spin of `handleSpinComplete`: when the physical winner is
in range, resolve it against the history and record the resolved value;
out-of-range winners record nothing. -/
def handleSpinComplete (recent : List ℕ) (winningIndex : ℕ) (numSegments : ℕ) :
    Option (ℕ × List ℕ) :=
  if winningIndex < numSegments then
    let resolved := resolveSpin recent winningIndex numSegments
    some (resolved, addRecentSpinSegment recent resolved)
  else
    none

/-- Folds a sequence of physically computed winners through
`handleSpinComplete`, starting from the empty history, returning the list
of resolved winners in order together with the final history. -/
def runSpins (numSegments : ℕ) (physical : List ℕ) : List ℕ × List ℕ :=
  physical.foldl
    (fun acc w =>
      match handleSpinComplete acc.2 w numSegments with
      | some (r, recent) => (acc.1 ++ [r], recent)
      | none => acc)
    ([], [])

/-- Claim C1 (code bug exhibit): on a 6-segment wheel, physical winners
1, 2, 2, 2 resolve to 1, 2, 2, 2 — after the resolved history ends in
2, 2, a spin whose physical winner is again 2 still resolves to 2, because
`recentSpinSegments.every` demands that ALL THREE retained history entries
equal the winner (here the history is [1, 2, 2]).  The claim (and the
code's own comment about never repeating a segment three times in a row)
requires this fourth spin to resolve to (2+1) % 6 = 3. -/
theorem claim_C1_anti_repeat_code_bug :
    runSpins 6 [1, 2, 2, 2] = ([1, 2, 2, 2], [2, 2, 2]) ∧
    resolveSpin [1, 2, 2] 2 6 = 2 ∧
    resolveSpin [2, 2] 2 6 = 3 := by
  refine ⟨?_, ?_, ?_⟩ <;> rfl

end Roulette

namespace Roulette

/-- A trivia question; only the category label and an identifying payload
matter to the segment construction
(`src/apps/roulette/src/utils/roulette/segments.ts`). -/
structure Question where
  category : String
  payload : ℕ
deriving Repr, DecidableEq

/-- A wheel segment before color assignment. -/
structure SegmentWithoutColor where
  text : String
  questions : List Question
deriving Repr, DecidableEq

/-- A colored wheel segment. -/
structure WheelSegment where
  text : String
  color : String
  questions : List Question
deriving Repr, DecidableEq

/-- Embedding of `AVAILABLE_COLORS` from colors.ts: the palette for
segments without a reserved category color (verde, celeste, amarillo,
rosado — the exclusive azul intenso is excluded). -/
def AVAILABLE_COLORS : List String :=
  ["#5ACCC1", "#40C0EF", "#F2BD35", "#D5A7CD"]

/-- Embedding of `CATEGORY_COLOR_MAP` from colors.ts. -/
def CATEGORY_COLOR_MAP : List (String × String) :=
  [("Dar Salud", "#192A6E"),
   ("Prevención", "#5ACCC1"),
   ("Criterios clínicos", "#40C0EF"),
   ("Cuidado interdisciplinario", "#F2BD35"),
   ("Ética y derechos", "#D5A7CD")]

/-- Embedding of `normalizeCategory` from colors.ts: only the label
"Dar Salud II" is folded into "Dar Salud". -/
def normalizeCategory (category : String) : String :=
  if category = "Dar Salud II" then "Dar Salud" else category

/-- Embedding of `getCategoryColor` from colors.ts. -/
def getCategoryColor (category : String) : Option String :=
  ((CATEGORY_COLOR_MAP.find? (fun p => p.1 = normalizeCategory category)).map
    (fun p => p.2))

/-- Model of JavaScript `String.startsWith` by comparing the character
prefix (stated on the character lists so that it evaluates inside the
kernel). -/
def strStartsWith (s pat : String) : Bool :=
  decide (s.data.take pat.data.length = pat.data)

/-- Embedding of `getNextFixedColor` from segments.ts: the reserved color
of the following segment, when there is one. -/
def getNextFixedColor (currentIndex : ℕ) (segments : List SegmentWithoutColor) :
    Option String :=
  (segments[currentIndex + 1]?).bind (fun seg => getCategoryColor seg.text)

/-- Candidate filtering of `selectOptimalColor`: prefer colors differing
from the previously assigned color and from the next segment's reserved
color, relax to differing from the previous color only, finally fall back
to the whole palette; pick by circular index. -/
def chooseColor (currentIndex : ℕ) (prevColor nextColor : Option String)
    (availableColors : List String) : String :=
  let cands1 := availableColors.filter (fun c => prevColor ≠ some c ∧ nextColor ≠ some c)
  let cands2 := if cands1.isEmpty then availableColors.filter (fun c => prevColor ≠ some c)
    else cands1
  let candidateColors := if cands2.isEmpty then availableColors else cands2
  candidateColors.getD (currentIndex % candidateColors.length) ""

/-- Embedding of `selectOptimalColor` from segments.ts lines 85-113: the
previous color is the last assigned one, the next color is the following
segment's reserved color. -/
def selectOptimalColor (currentIndex : ℕ) (allSegments : List SegmentWithoutColor)
    (usedColors : List String) (availableColors : List String) : String :=
  let prevColor : Option String :=
    if 0 < currentIndex then usedColors[currentIndex - 1]? else none
  let nextColor : Option String := getNextFixedColor currentIndex allSegments
  chooseColor currentIndex prevColor nextColor availableColors

/-- The `segments.forEach` loop of `assignColorsToSegments`, carried out
on the remaining segments with the current index and the colors assigned
so far (`usedColors` always has one entry per processed segment). -/
def assignColorsGo (allSegments : List SegmentWithoutColor) :
    ℕ → List String → List SegmentWithoutColor → List WheelSegment
  | _, _, [] => []
  | index, used, seg :: rest =>
    match getCategoryColor seg.text with
    | some c =>
      { text := seg.text, color := c, questions := seg.questions } ::
        assignColorsGo allSegments (index + 1) (used ++ [c]) rest
    | none =>
      let c := selectOptimalColor index allSegments used AVAILABLE_COLORS
      { text := seg.text, color := c, questions := seg.questions } ::
        assignColorsGo allSegments (index + 1) (used ++ [c]) rest

/-- Embedding of `assignColorsToSegments` from segments.ts lines 37-74. -/
def assignColorsToSegments (segments : List SegmentWithoutColor) : List WheelSegment :=
  assignColorsGo segments 0 [] segments

/-- One step of the `questions.forEach` loop of
`groupQuestionsByCategory`: append to the group of the question's category
or open a new group at the end (string-keyed JavaScript objects iterate in
key-insertion order). -/
def addToGroups : List (String × List Question) → Question → List (String × List Question)
  | [], q => [(q.category, [q])]
  | (c, l) :: rest, q =>
    if c = q.category then (c, l ++ [q]) :: rest else (c, l) :: addToGroups rest q

/-- Embedding of `groupQuestionsByCategory` from segments.ts lines 138-151
(the revision that does NOT normalize, keeping the "Dar Salud" pools
separate). -/
def groupQuestionsByCategory (questions : List Question) : List (String × List Question) :=
  questions.foldl addToGroups []

/-- JavaScript `Array.splice(pos, 0, x)`: an out-of-range position is
clamped to the array length (so the element is appended), unlike
`List.insertIdx` which would drop it. -/
def spliceInsert (l : List SegmentWithoutColor) (pos : ℕ) (x : SegmentWithoutColor) :
    List SegmentWithoutColor :=
  l.insertIdx (min pos l.length) x

/-- Embedding of `insertDarSaludSegments` from segments.ts lines 196-236,
carrying each "Dar Salud" pool as its (label, questions) pair: with two or
more pools, insert the first at `total/3` and the second at
`2*total/3 + 1`, appending any further pools; a single pool goes to the
midpoint. -/
def insertDarSaludSegments (segments : List SegmentWithoutColor)
    (ds : List (String × List Question)) : List SegmentWithoutColor :=
  let totalSegments := segments.length + ds.length
  match ds with
  | d0 :: d1 :: rest =>
    let firstPosition := totalSegments / 3
    let secondPosition := totalSegments * 2 / 3
    let s1 := spliceInsert segments firstPosition
      { text := normalizeCategory d0.1, questions := d0.2 }
    let s2 := spliceInsert s1 (secondPosition + 1)
      { text := normalizeCategory d1.1, questions := d1.2 }
    s2 ++ rest.map (fun d => { text := normalizeCategory d.1, questions := d.2 })
  | [d0] =>
    spliceInsert segments (totalSegments / 2)
      { text := normalizeCategory d0.1, questions := d0.2 }
  | [] => segments

/-- Embedding of `createRouletteSegments` from segments.ts lines 160-186:
group the questions by exact category, split off the pools whose label
starts with "Dar Salud", turn the remaining categories into segments in
encounter order, insert the "Dar Salud" pools strategically, and assign
colors. -/
def createRouletteSegments (questions : List Question) : List WheelSegment :=
  if questions.isEmpty then []
  else
    let grouped := groupQuestionsByCategory questions
    let regular := (grouped.filter (fun p => !(strStartsWith p.1 "Dar Salud"))).map
      (fun p => { text := p.1, questions := p.2 : SegmentWithoutColor })
    let ds := grouped.filter (fun p => strStartsWith p.1 "Dar Salud")
    let segs := if ds.isEmpty then regular else insertDarSaludSegments regular ds
    assignColorsToSegments segs

/-- Questions of a colored segment list, concatenated in wheel order. -/
def joinQuestions (ws : List WheelSegment) : List Question :=
  (ws.map (fun w => w.questions)).flatten

/-- Questions of an uncolored segment list, concatenated in wheel order. -/
def joinSegQ (ss : List SegmentWithoutColor) : List Question :=
  (ss.map (fun s => s.questions)).flatten

/-- Questions of a grouped (label, pool) list, concatenated. -/
def joinSnd (gs : List (String × List Question)) : List Question :=
  (gs.map (fun p => p.2)).flatten

theorem joinSegQ_cons (x : SegmentWithoutColor) (l : List SegmentWithoutColor) :
    joinSegQ (x :: l) = x.questions ++ joinSegQ l := rfl

theorem joinSegQ_append (l1 l2 : List SegmentWithoutColor) :
    joinSegQ (l1 ++ l2) = joinSegQ l1 ++ joinSegQ l2 := by
  simp [joinSegQ]

theorem perm_flatten {α : Type} {l₁ l₂ : List (List α)} (h : List.Perm l₁ l₂) :
    List.Perm l₁.flatten l₂.flatten := by
  induction h with
  | nil => exact List.Perm.refl _
  | cons x _ ih => simpa using ih.append_left x
  | swap x y l =>
    simp only [List.flatten_cons]
    rw [← List.append_assoc, ← List.append_assoc]
    exact List.perm_append_comm.append_right _
  | trans _ _ ih1 ih2 => exact ih1.trans ih2

theorem joinSegQ_perm_of_perm {l1 l2 : List SegmentWithoutColor} (h : List.Perm l1 l2) :
    List.Perm (joinSegQ l1) (joinSegQ l2) := perm_flatten (h.map _)

theorem joinSnd_perm_of_perm {l1 l2 : List (String × List Question)} (h : List.Perm l1 l2) :
    List.Perm (joinSnd l1) (joinSnd l2) := perm_flatten (h.map _)

theorem joinSnd_addToGroups (gs : List (String × List Question)) (q : Question) :
    List.Perm (joinSnd (addToGroups gs q)) (joinSnd gs ++ [q]) := by
  induction gs with
  | nil => simp [addToGroups, joinSnd]
  | cons p rest ih =>
    obtain ⟨c, l⟩ := p
    by_cases hc : c = q.category
    · simp only [addToGroups, if_pos hc, joinSnd, List.map_cons, List.flatten_cons]
      rw [List.append_assoc, List.append_assoc]
      exact List.perm_append_comm.append_left l
    · simp only [addToGroups, if_neg hc, joinSnd, List.map_cons, List.flatten_cons]
      rw [List.append_assoc]
      exact (ih : List.Perm (joinSnd (addToGroups rest q)) (joinSnd rest ++ [q])).append_left l

theorem joinSnd_foldl (qs : List Question) :
    ∀ gs, List.Perm (joinSnd (qs.foldl addToGroups gs)) (joinSnd gs ++ qs) := by
  induction qs with
  | nil =>
    intro gs
    simp
  | cons q rest ih =>
    intro gs
    simp only [List.foldl_cons]
    refine (ih (addToGroups gs q)).trans ?_
    refine ((joinSnd_addToGroups gs q).append_right rest).trans ?_
    rw [List.append_assoc]
    exact List.Perm.refl _

theorem groupQuestions_perm (qs : List Question) :
    List.Perm (joinSnd (groupQuestionsByCategory qs)) qs := by
  have h := joinSnd_foldl qs []
  simpa [joinSnd] using h

theorem assignColorsGo_map (all : List SegmentWithoutColor) :
    ∀ (rem : List SegmentWithoutColor) (i : ℕ) (used : List String),
      (assignColorsGo all i used rem).map (fun w => (w.text, w.questions)) =
        rem.map (fun s => (s.text, s.questions)) := by
  intro rem
  induction rem with
  | nil =>
    intro i used
    rfl
  | cons seg rest ih =>
    intro i used
    unfold assignColorsGo
    cases h : getCategoryColor seg.text <;> simp [ih]

theorem joinQuestions_assign (ss : List SegmentWithoutColor) :
    joinQuestions (assignColorsToSegments ss) = joinSegQ ss := by
  have h := assignColorsGo_map ss ss 0 []
  have h2 : (assignColorsToSegments ss).map (fun w => w.questions) =
      ss.map (fun s => s.questions) := by
    have h3 := congrArg (List.map Prod.snd) h
    simpa [List.map_map, Function.comp, assignColorsToSegments] using h3
  simp [joinQuestions, joinSegQ, h2]

theorem spliceInsert_perm (l : List SegmentWithoutColor) (pos : ℕ) (x : SegmentWithoutColor) :
    List.Perm (spliceInsert l pos x) (x :: l) :=
  List.perm_insertIdx x l (min_le_right pos l.length)

theorem joinSegQ_mapSnd (gs : List (String × List Question))
    (g : String × List Question → String) :
    joinSegQ (gs.map (fun d => { text := g d, questions := d.2 })) = joinSnd gs := by
  simp only [joinSegQ, joinSnd, List.map_map]
  rfl

theorem insertDarSalud_perm (segments : List SegmentWithoutColor)
    (ds : List (String × List Question)) :
    List.Perm (joinSegQ (insertDarSaludSegments segments ds))
      (joinSegQ segments ++ joinSnd ds) := by
  match ds with
  | [] => simp [insertDarSaludSegments, joinSnd]
  | [d0] =>
    unfold insertDarSaludSegments
    refine (joinSegQ_perm_of_perm (spliceInsert_perm segments _ _)).trans ?_
    rw [joinSegQ_cons]
    rw [List.perm_iff_count]
    intro a
    simp [List.count_append, joinSnd]
    omega
  | d0 :: d1 :: rest =>
    unfold insertDarSaludSegments
    simp only
    rw [joinSegQ_append]
    have h2 := joinSegQ_perm_of_perm (spliceInsert_perm
      (spliceInsert segments ((segments.length + (d0 :: d1 :: rest).length) / 3)
        { text := normalizeCategory d0.1, questions := d0.2 })
      ((segments.length + (d0 :: d1 :: rest).length) * 2 / 3 + 1)
      { text := normalizeCategory d1.1, questions := d1.2 })
    have h1 := joinSegQ_perm_of_perm (spliceInsert_perm segments
      ((segments.length + (d0 :: d1 :: rest).length) / 3)
      { text := normalizeCategory d0.1, questions := d0.2 })
    rw [joinSegQ_cons] at h2 h1
    refine ((h2.trans (h1.append_left _)).append_right _).trans ?_
    rw [joinSegQ_mapSnd]
    rw [List.perm_iff_count]
    intro a
    simp only [List.count_append, joinSnd, List.map_cons, List.flatten_cons]
    omega

theorem getElem?_insertIdx_lt {α : Type} (x : α) :
    ∀ (n i : ℕ) (l : List α), i < n → (l.insertIdx n x)[i]? = l[i]? := by
  intro n
  induction n with
  | zero =>
    intro i l hi
    omega
  | succ n ih =>
    intro i l hi
    cases l with
    | nil => rfl
    | cons hd tl =>
      rw [List.insertIdx_succ_cons]
      cases i with
      | zero => simp
      | succ j =>
        rw [List.getElem?_cons_succ, List.getElem?_cons_succ]
        exact ih j tl (by omega)

theorem getElem?_insertIdx_self {α : Type} (x : α) :
    ∀ (n : ℕ) (l : List α), n ≤ l.length → (l.insertIdx n x)[n]? = some x := by
  intro n
  induction n with
  | zero =>
    intro l _
    simp
  | succ n ih =>
    intro l hn
    cases l with
    | nil => simp at hn
    | cons hd tl =>
      rw [List.insertIdx_succ_cons, List.getElem?_cons_succ]
      exact ih tl (by simpa using hn)

theorem getElem?_insertIdx_gt {α : Type} (x : α) :
    ∀ (n i : ℕ) (l : List α), n < i → (l.insertIdx n x)[i]? = l[i - 1]? := by
  intro n
  induction n with
  | zero =>
    intro i l hi
    obtain ⟨j, rfl⟩ : ∃ j, i = j + 1 := ⟨i - 1, by omega⟩
    rw [List.insertIdx_zero, List.getElem?_cons_succ]
    simp
  | succ n ih =>
    intro i l hi
    obtain ⟨j, rfl⟩ : ∃ j, i = j + 1 := ⟨i - 1, by omega⟩
    cases l with
    | nil => rfl
    | cons hd tl =>
      rw [List.insertIdx_succ_cons, List.getElem?_cons_succ]
      rw [ih j tl (by omega)]
      obtain ⟨k, rfl⟩ : ∃ k, j = k + 1 := ⟨j - 1, by omega⟩
      simp

theorem assign_texts (ss : List SegmentWithoutColor) :
    (assignColorsToSegments ss).map (fun w => w.text) = ss.map (fun s => s.text) := by
  have h3 := congrArg (List.map Prod.fst) (assignColorsGo_map ss ss 0 [])
  simpa [List.map_map, Function.comp, assignColorsToSegments] using h3

theorem insertTwo_eq (R : List SegmentWithoutColor) (d0 d1 : String × List Question)
    (hR : 2 ≤ R.length) :
    insertDarSaludSegments R [d0, d1] =
      (R.insertIdx ((R.length + 2) / 3)
          { text := normalizeCategory d0.1, questions := d0.2 }).insertIdx
        ((R.length + 2) * 2 / 3 + 1)
        { text := normalizeCategory d1.1, questions := d1.2 } := by
  have hlen1 : (R.insertIdx ((R.length + 2) / 3)
      { text := normalizeCategory d0.1, questions := d0.2 : SegmentWithoutColor }).length =
      R.length + 1 := List.length_insertIdx _ _ (by omega)
  unfold insertDarSaludSegments
  simp only [List.length_cons, List.length_nil, List.map_nil, List.append_nil, spliceInsert]
  rw [show R.length + (0 + 1 + 1) = R.length + 2 from by omega]
  rw [min_eq_left (show (R.length + 2) / 3 ≤ R.length from by omega)]
  rw [hlen1]
  rw [min_eq_left (show (R.length + 2) * 2 / 3 + 1 ≤ R.length + 1 from by omega)]

/-- Claim C7: every entry appears in exactly one segment of the built
wheel — the concatenation of the questions of all segments produced by
`createRouletteSegments` is a permutation of the input question list (no
question lost, none duplicated) — and an empty input yields the empty
segment list. -/
theorem claim_C7_segment_coverage :
    (∀ qs : List Question,
      List.Perm (joinQuestions (createRouletteSegments qs)) qs) ∧
    createRouletteSegments [] = [] := by
  constructor
  · intro qs
    by_cases hq : qs.isEmpty
    · rw [List.isEmpty_iff] at hq
      subst hq
      exact List.Perm.refl _
    · unfold createRouletteSegments
      rw [if_neg hq]
      simp only
      rw [joinQuestions_assign]
      have hsplit : List.Perm
          ((groupQuestionsByCategory qs).filter (fun p => strStartsWith p.1 "Dar Salud") ++
            (groupQuestionsByCategory qs).filter (fun p => !(strStartsWith p.1 "Dar Salud")))
          (groupQuestionsByCategory qs) :=
        List.filter_append_perm _ _
      have hgrp : List.Perm (joinSnd (groupQuestionsByCategory qs)) qs :=
        groupQuestions_perm qs
      by_cases hds : ((groupQuestionsByCategory qs).filter
          (fun p => strStartsWith p.1 "Dar Salud")).isEmpty
      · rw [if_pos hds]
        rw [List.isEmpty_iff] at hds
        rw [joinSegQ_mapSnd]
        refine List.Perm.trans ?_ hgrp
        refine List.Perm.trans ?_ (joinSnd_perm_of_perm hsplit)
        rw [hds]
        simp [joinSnd]
      · rw [if_neg hds]
        refine (insertDarSalud_perm _ _).trans ?_
        rw [joinSegQ_mapSnd]
        refine List.Perm.trans ?_ hgrp
        refine List.Perm.trans ?_ (joinSnd_perm_of_perm hsplit)
        rw [List.perm_iff_count]
        intro a
        simp [List.count_append, joinSnd]
        omega
  · rfl

/-- Claim C8 counterexample: with one regular category and the two
"Dar Salud" pools (total 3 segments), `Array.splice` clamps the second
insertion position `floor(2*3/3)+1 = 3` to the end of the 2-element
array, so the built wheel is [Prevención, Dar Salud, Dar Salud]: the two
"Dar Salud" segments sit at adjacent positions 1 and 2 (and on a
3-segment circle every pair is adjacent), contradicting the claim that
they are never adjacent for every input entry list. -/
theorem claim_C8_counterexample :
    (createRouletteSegments
      [{ category := "Prevención", payload := 0 },
       { category := "Dar Salud", payload := 1 },
       { category := "Dar Salud II", payload := 2 }]).map (fun w => w.text) =
      ["Prevención", "Dar Salud", "Dar Salud"] := by
  rfl

/-- Claim C8 as amended: when the grouped questions contain exactly two
"Dar Salud" pools AND at least two regular categories (so the wheel has at
least 4 segments), the first pool lands exactly at `floor(total/3)`, the
second exactly at `floor(2*total/3)+1`, the two positions are at circular
distance at least 2 on both sides (never adjacent, wrap-around included),
and no other segment is a "Dar Salud" segment.  For smaller wheels the
splice positions clamp to the end and the two pools can touch
(counterexample). -/
theorem claim_C8_amended_dar_salud_placement (qs : List Question)
    (d0 d1 : String × List Question)
    (hds : (groupQuestionsByCategory qs).filter
      (fun p => strStartsWith p.1 "Dar Salud") = [d0, d1])
    (hreg : 2 ≤ ((groupQuestionsByCategory qs).filter
      (fun p => !(strStartsWith p.1 "Dar Salud"))).length) :
    let out := createRouletteSegments qs
    let n := out.length
    let p1 := n / 3
    let p2 := n * 2 / 3 + 1
    n = ((groupQuestionsByCategory qs).filter
        (fun p => !(strStartsWith p.1 "Dar Salud"))).length + 2 ∧
    (out[p1]?).map (fun w => w.text) = some (normalizeCategory d0.1) ∧
    (out[p2]?).map (fun w => w.text) = some (normalizeCategory d1.1) ∧
    1 ≤ p1 ∧ p1 + 2 ≤ p2 ∧ p2 + 1 ≤ n ∧ 2 ≤ p1 + (n - p2) ∧
    (∀ i w, i ≠ p1 → i ≠ p2 → out[i]? = some w →
      strStartsWith w.text "Dar Salud" = false) := by
  have hq : ¬ qs.isEmpty = true := by
    intro hqe
    rw [List.isEmpty_iff] at hqe
    subst hqe
    simp [groupQuestionsByCategory] at hds
  have hout : createRouletteSegments qs =
      assignColorsToSegments (insertDarSaludSegments
        (((groupQuestionsByCategory qs).filter
            (fun p => !(strStartsWith p.1 "Dar Salud"))).map
          (fun p => { text := p.1, questions := p.2 }))
        [d0, d1]) := by
    unfold createRouletteSegments
    rw [if_neg hq]
    simp only
    rw [hds]
    rfl
  set R : List SegmentWithoutColor :=
    ((groupQuestionsByCategory qs).filter
        (fun p => !(strStartsWith p.1 "Dar Salud"))).map
      (fun p => { text := p.1, questions := p.2 }) with hRdef
  have hr : 2 ≤ R.length := by
    rw [hRdef, List.length_map]
    exact hreg
  have hL := insertTwo_eq R d0 d1 hr
  set A : SegmentWithoutColor := { text := normalizeCategory d0.1, questions := d0.2 } with hA
  set B : SegmentWithoutColor := { text := normalizeCategory d1.1, questions := d1.2 } with hB
  set q1 : ℕ := (R.length + 2) / 3 with hq1
  set q2 : ℕ := (R.length + 2) * 2 / 3 + 1 with hq2
  have hs1len : (R.insertIdx q1 A).length = R.length + 1 :=
    List.length_insertIdx _ _ (by omega)
  have hLlen : (insertDarSaludSegments R [d0, d1]).length = R.length + 2 := by
    rw [hL, List.length_insertIdx _ _ (by omega), hs1len]
  have houtlen : (createRouletteSegments qs).length = R.length + 2 := by
    have h1 := congrArg List.length (assign_texts (insertDarSaludSegments R [d0, d1]))
    rw [List.length_map, List.length_map] at h1
    rw [hout, h1, hLlen]
  have htextAt : ∀ i : ℕ, ((createRouletteSegments qs)[i]?).map (fun w => w.text) =
      ((insertDarSaludSegments R [d0, d1])[i]?).map (fun s => s.text) := by
    intro i
    rw [hout]
    have h1 := congrArg (fun l => l[i]?) (assign_texts (insertDarSaludSegments R [d0, d1]))
    simpa [List.getElem?_map] using h1
  have hmem : ∀ i w, i ≠ q1 → i ≠ q2 →
      (insertDarSaludSegments R [d0, d1])[i]? = some w → w ∈ R := by
    intro i w hi1 hi2 hw
    rw [hL] at hw
    rcases Nat.lt_trichotomy i q2 with hlt | heq | hgt
    · rw [getElem?_insertIdx_lt B q2 i _ hlt] at hw
      rcases Nat.lt_trichotomy i q1 with hlt1 | heq1 | hgt1
      · rw [getElem?_insertIdx_lt A q1 i R hlt1] at hw
        obtain ⟨hb, rfl⟩ := List.getElem?_eq_some.mp hw
        exact List.getElem_mem hb
      · exact absurd heq1 hi1
      · rw [getElem?_insertIdx_gt A q1 i R hgt1] at hw
        obtain ⟨hb, rfl⟩ := List.getElem?_eq_some.mp hw
        exact List.getElem_mem hb
    · exact absurd heq hi2
    · rw [getElem?_insertIdx_gt B q2 i _ hgt] at hw
      have hgt1 : q1 < i - 1 := by omega
      rw [getElem?_insertIdx_gt A q1 (i - 1) R hgt1] at hw
      obtain ⟨hb, rfl⟩ := List.getElem?_eq_some.mp hw
      exact List.getElem_mem hb
  have hRtext : ∀ w, w ∈ R → strStartsWith w.text "Dar Salud" = false := by
    intro w hw
    rw [hRdef] at hw
    obtain ⟨p, hp, rfl⟩ := List.mem_map.mp hw
    have h2 := (List.mem_filter.mp hp).2
    simpa using h2
  intro out n p1 p2
  have hn : n = R.length + 2 := houtlen
  have hp1 : p1 = q1 := by rw [hq1, ← hn]
  have hp2 : p2 = q2 := by rw [hq2, ← hn]
  refine ⟨?_, ?_, ?_, ?_, ?_, ?_, ?_, ?_⟩
  · rw [hn, hRdef, List.length_map]
  · rw [hp1, htextAt q1, hL]
    rw [getElem?_insertIdx_lt B q2 q1 _ (by omega)]
    rw [getElem?_insertIdx_self A q1 R (by omega)]
    rfl
  · rw [hp2, htextAt q2, hL]
    rw [getElem?_insertIdx_self B q2 _ (by rw [hs1len]; omega)]
    rfl
  · rw [hp1, hq1]; omega
  · rw [hp1, hp2, hq1, hq2]; omega
  · rw [hp2, hq2, hn]; omega
  · rw [hp1, hp2, hq1, hq2, hn]; omega
  · intro i w hi1 hi2 hw
    have htext := htextAt i
    rw [hw] at htext
    obtain ⟨w2, hw2, htext2⟩ := Option.map_eq_some'.mp htext.symm
    have hwmem : w2 ∈ R := hmem i w2 (by rw [← hp1]; exact hi1) (by rw [← hp2]; exact hi2) hw2
    have htext3 : w2.text = w.text := htext2
    rw [← htext3]
    exact hRtext w2 hwmem

/-- Witness for the amended C8 at a concrete input: categories A, B plus
the two "Dar Salud" pools give a 4-segment wheel with the pools at
positions 4/3 = 1 and 4*2/3+1 = 3 — opposite sides of the circle. -/
theorem claim_C8_amended_dar_salud_placement_witness :
    let out := createRouletteSegments
      [{ category := "A", payload := 0 },
       { category := "B", payload := 1 },
       { category := "Dar Salud", payload := 2 },
       { category := "Dar Salud II", payload := 3 }]
    let n := out.length
    let p1 := n / 3
    let p2 := n * 2 / 3 + 1
    n = ((groupQuestionsByCategory
        [{ category := "A", payload := 0 },
         { category := "B", payload := 1 },
         { category := "Dar Salud", payload := 2 },
         { category := "Dar Salud II", payload := 3 }]).filter
        (fun p => !(strStartsWith p.1 "Dar Salud"))).length + 2 ∧
    (out[p1]?).map (fun w => w.text) = some (normalizeCategory "Dar Salud") ∧
    (out[p2]?).map (fun w => w.text) = some (normalizeCategory "Dar Salud II") ∧
    1 ≤ p1 ∧ p1 + 2 ≤ p2 ∧ p2 + 1 ≤ n ∧ 2 ≤ p1 + (n - p2) ∧
    (∀ i w, i ≠ p1 → i ≠ p2 → out[i]? = some w →
      strStartsWith w.text "Dar Salud" = false) :=
  claim_C8_amended_dar_salud_placement
    [{ category := "A", payload := 0 },
     { category := "B", payload := 1 },
     { category := "Dar Salud", payload := 2 },
     { category := "Dar Salud II", payload := 3 }]
    ("Dar Salud", [{ category := "Dar Salud", payload := 2 }])
    ("Dar Salud II", [{ category := "Dar Salud II", payload := 3 }])
    (by rfl) (by decide)

/-- No two consecutive segments carry the same reserved category color
(the situation the color assigner cannot repair, since reserved colors are
applied unconditionally). -/
def adjacentFixedOk : List SegmentWithoutColor → Bool
  | s1 :: s2 :: rest =>
    (decide (getCategoryColor s1.text = none ∨
      getCategoryColor s1.text ≠ getCategoryColor s2.text)) &&
      adjacentFixedOk (s2 :: rest)
  | _ => true

theorem getD_mem_of_lt {l : List String} {n : ℕ} {d : String} (h : n < l.length) :
    l.getD n d ∈ l := by
  rw [List.getD_eq_getElem l d h]
  exact List.getElem_mem h

theorem filter_avoid_ne_nil (p q : Option String) :
    AVAILABLE_COLORS.filter (fun c => p ≠ some c ∧ q ≠ some c) ≠ [] := by
  have hmain : ∀ x : String, x ∈ AVAILABLE_COLORS → (p ≠ some x ∧ q ≠ some x) →
      AVAILABLE_COLORS.filter (fun c => p ≠ some c ∧ q ≠ some c) ≠ [] := by
    intro x hx hpq hnil
    have hmem : x ∈ AVAILABLE_COLORS.filter (fun c => p ≠ some c ∧ q ≠ some c) := by
      rw [List.mem_filter]
      exact ⟨hx, by simpa using hpq⟩
    rw [hnil] at hmem
    exact List.not_mem_nil x hmem
  by_cases h1 : p ≠ some "#5ACCC1" ∧ q ≠ some "#5ACCC1"
  · exact hmain _ (by decide) h1
  · by_cases h2 : p ≠ some "#40C0EF" ∧ q ≠ some "#40C0EF"
    · exact hmain _ (by decide) h2
    · by_cases h3 : p ≠ some "#F2BD35" ∧ q ≠ some "#F2BD35"
      · exact hmain _ (by decide) h3
      · exfalso
        rcases not_and_or.mp h1 with hA | hA <;> rw [not_not] at hA <;>
          rcases not_and_or.mp h2 with hB | hB <;> rw [not_not] at hB <;>
            rcases not_and_or.mp h3 with hC | hC <;> rw [not_not] at hC <;>
              first
                | exact absurd (hA.symm.trans hB) (by decide)
                | exact absurd (hA.symm.trans hC) (by decide)
                | exact absurd (hB.symm.trans hC) (by decide)

theorem chooseColor_spec (i : ℕ) (p q : Option String) :
    p ≠ some (chooseColor i p q AVAILABLE_COLORS) ∧
    q ≠ some (chooseColor i p q AVAILABLE_COLORS) := by
  have hno := filter_avoid_ne_nil p q
  have hne : ¬ ((AVAILABLE_COLORS.filter
      (fun c => p ≠ some c ∧ q ≠ some c)).isEmpty = true) := by
    rw [List.isEmpty_iff]
    exact hno
  have heq : chooseColor i p q AVAILABLE_COLORS =
      (AVAILABLE_COLORS.filter (fun c => p ≠ some c ∧ q ≠ some c)).getD
        (i % (AVAILABLE_COLORS.filter (fun c => p ≠ some c ∧ q ≠ some c)).length) "" := by
    unfold chooseColor
    simp only [if_neg hne]
  rw [heq]
  have hlen : 0 < (AVAILABLE_COLORS.filter
      (fun c => p ≠ some c ∧ q ≠ some c)).length :=
    List.length_pos.mpr hno
  have hmem := getD_mem_of_lt
    (l := AVAILABLE_COLORS.filter (fun c => p ≠ some c ∧ q ≠ some c))
    (n := i % (AVAILABLE_COLORS.filter (fun c => p ≠ some c ∧ q ≠ some c)).length)
    (d := "") (Nat.mod_lt _ hlen)
  have hpred := (List.mem_filter.mp hmem).2
  simpa using hpred

theorem selectOptimalColor_spec (i : ℕ) (all : List SegmentWithoutColor)
    (used : List String) :
    (if 0 < i then used[i - 1]? else none) ≠
        some (selectOptimalColor i all used AVAILABLE_COLORS) ∧
    getNextFixedColor i all ≠ some (selectOptimalColor i all used AVAILABLE_COLORS) :=
  chooseColor_spec i (if 0 < i then used[i - 1]? else none) (getNextFixedColor i all)

theorem chain'_ne_getElem? {l : List String}
    (h : List.Chain' (fun a b => a ≠ b) l) :
    ∀ (i : ℕ) (a b : String), l[i]? = some a → l[i + 1]? = some b → a ≠ b := by
  induction l with
  | nil =>
    intro i a b h1
    simp at h1
  | cons x rest ih =>
    intro i a b h1 h2
    cases rest with
    | nil =>
      cases i <;> simp at h2
    | cons y rest2 =>
      rw [List.chain'_cons] at h
      cases i with
      | zero =>
        rw [List.getElem?_cons_zero] at h1
        rw [List.getElem?_cons_succ, List.getElem?_cons_zero] at h2
        cases h1
        cases h2
        exact h.1
      | succ j =>
        rw [List.getElem?_cons_succ] at h1 h2
        exact ih h.2 j a b h1 h2

theorem assignGo_chain (all : List SegmentWithoutColor) :
    ∀ (rem : List SegmentWithoutColor) (i : ℕ) (used : List String),
      all.drop i = rem → used.length = i → adjacentFixedOk rem = true →
      (∀ s c, rem[0]? = some s → getCategoryColor s.text = some c →
        used.getLast? ≠ some c) →
      List.Chain' (fun a b => a ≠ b)
        (used.getLast?.toList ++ (assignColorsGo all i used rem).map (fun w => w.color)) := by
  intro rem
  induction rem with
  | nil =>
    intro i used _ _ _ _
    rcases used.getLast? with _ | x <;> simp [assignColorsGo]
  | cons seg rest ih =>
    intro i used hdrop hlen hok hbound
    have hdrop1 : all.drop (i + 1) = rest := by
      have h1 := List.drop_drop 1 i all
      rw [hdrop] at h1
      simpa using h1.symm
    have hall_i1 : all[i + 1]? = rest[0]? := by
      have h1 := List.getElem?_drop all (i + 1) 0
      rw [hdrop1] at h1
      simpa using h1.symm
    have hokRest : adjacentFixedOk rest = true := by
      cases rest with
      | nil => rfl
      | cons s2 rest2 =>
        rw [show adjacentFixedOk (seg :: s2 :: rest2) =
            ((decide (getCategoryColor seg.text = none ∨
              getCategoryColor seg.text ≠ getCategoryColor s2.text)) &&
              adjacentFixedOk (s2 :: rest2)) from rfl] at hok
        rw [Bool.and_eq_true] at hok
        exact hok.2
    cases hcat : getCategoryColor seg.text with
    | some cf =>
      have hA : used.getLast? ≠ some cf := hbound seg cf List.getElem?_cons_zero hcat
      have hboundNext : ∀ s c, rest[0]? = some s → getCategoryColor s.text = some c →
          (used ++ [cf]).getLast? ≠ some c := by
        intro s c hs hc
        rw [List.getLast?_concat]
        intro heq
        cases heq
        cases rest with
        | nil => exact Option.noConfusion hs
        | cons s2 rest2 =>
          rw [List.getElem?_cons_zero] at hs
          have hs2 : s2 = s := Option.some.inj hs
          rw [show adjacentFixedOk (seg :: s2 :: rest2) =
              ((decide (getCategoryColor seg.text = none ∨
                getCategoryColor seg.text ≠ getCategoryColor s2.text)) &&
                adjacentFixedOk (s2 :: rest2)) from rfl] at hok
          rw [Bool.and_eq_true] at hok
          have hpair := of_decide_eq_true hok.1
          rcases hpair with hpair | hpair
          · rw [hcat] at hpair
            exact Option.noConfusion hpair
          · rw [hcat, hs2, hc] at hpair
            exact hpair rfl
      have ihres := ih (i + 1) (used ++ [cf]) hdrop1
        (by simp [hlen]) hokRest hboundNext
      rw [List.getLast?_concat] at ihres
      simp only [assignColorsGo, hcat, List.map_cons]
      rcases hul : used.getLast? with _ | x
      · simpa using ihres
      · rw [hul] at hA
        simp only [Option.toList_some, List.singleton_append]
        rw [List.chain'_cons]
        refine ⟨by intro hx; exact hA (by rw [hx]), ?_⟩
        simpa using ihres
    | none =>
      have hspec := selectOptimalColor_spec i all used
      have hA : used.getLast? ≠
          some (selectOptimalColor i all used AVAILABLE_COLORS) := by
        rcases Nat.eq_zero_or_pos i with hz | hpos
        · subst hz
          have : used = [] := List.length_eq_zero.mp hlen
          subst this
          simp
        · have h1 := hspec.1
          rw [if_pos hpos] at h1
          rw [List.getLast?_eq_getElem?, hlen]
          exact h1
      have hboundNext : ∀ s c, rest[0]? = some s → getCategoryColor s.text = some c →
          (used ++ [selectOptimalColor i all used AVAILABLE_COLORS]).getLast? ≠
            some c := by
        intro s c hs hc
        rw [List.getLast?_concat]
        intro heq
        cases heq
        have h2 := hspec.2
        rw [getNextFixedColor, hall_i1, hs] at h2
        have h3 : getCategoryColor s.text ≠
            some (selectOptimalColor i all used AVAILABLE_COLORS) := h2
        rw [hc] at h3
        exact h3 rfl
      have ihres := ih (i + 1)
        (used ++ [selectOptimalColor i all used AVAILABLE_COLORS]) hdrop1
        (by simp [hlen]) hokRest hboundNext
      rw [List.getLast?_concat] at ihres
      simp only [assignColorsGo, hcat, List.map_cons]
      rcases hul : used.getLast? with _ | x
      · simpa using ihres
      · rw [hul] at hA
        simp only [Option.toList_some, List.singleton_append]
        rw [List.chain'_cons]
        refine ⟨by intro hx; exact hA (by rw [hx]), ?_⟩
        simpa using ihres

/-- Claim C9 counterexample: the assigner never compares the last segment
with the first.  Four unknown categories get colors verde, amarillo,
rosado, verde — the circularly adjacent pair (last, first) shares verde;
and two consecutive segments with the same reserved category color
("Prevención") both get verde, adjacent at positions 0 and 1. -/
theorem claim_C9_counterexample :
    ((assignColorsToSegments
      [{ text := "A", questions := [{ category := "A", payload := 0 }] },
       { text := "B", questions := [{ category := "B", payload := 1 }] },
       { text := "C", questions := [{ category := "C", payload := 2 }] },
       { text := "D", questions := [{ category := "D", payload := 3 }] }]).map
        (fun w => w.color) =
      ["#5ACCC1", "#F2BD35", "#D5A7CD", "#5ACCC1"]) ∧
    ((assignColorsToSegments
      [{ text := "Prevención", questions := [{ category := "Prevención", payload := 0 }] },
       { text := "Prevención", questions := [{ category := "Prevención", payload := 1 }] },
       { text := "A", questions := [{ category := "A", payload := 2 }] },
       { text := "B", questions := [{ category := "B", payload := 3 }] }]).map
        (fun w => w.color) =
      ["#5ACCC1", "#5ACCC1", "#D5A7CD", "#5ACCC1"]) := by
  exact ⟨rfl, rfl⟩

/-- Claim C9 as amended: with the code's 4-color palette, whenever no two
CONSECUTIVE segments carry the same reserved category color, the produced
coloring gives distinct colors to every consecutive pair (i, i+1); the
wrap-around pair (last, first) is not protected (counterexample), nor are
equal reserved colors. -/
theorem claim_C9_amended_no_adjacent_color (segments : List SegmentWithoutColor)
    (hfix : adjacentFixedOk segments = true) :
    ∀ (i : ℕ) (w1 w2 : WheelSegment),
      (assignColorsToSegments segments)[i]? = some w1 →
      (assignColorsToSegments segments)[i + 1]? = some w2 →
      w1.color ≠ w2.color := by
  have hchain := assignGo_chain segments segments 0 [] rfl rfl hfix
    (by intro s c h1 h2; simp)
  simp only [List.getLast?_nil, Option.toList_none, List.nil_append] at hchain
  intro i w1 w2 h1 h2
  have h1g : (assignColorsGo segments 0 [] segments)[i]? = some w1 := h1
  have h2g : (assignColorsGo segments 0 [] segments)[i + 1]? = some w2 := h2
  apply chain'_ne_getElem? hchain i w1.color w2.color
  · rw [List.getElem?_map, h1g]
    rfl
  · rw [List.getElem?_map, h2g]
    rfl

/-- Witness for the amended C9: on the four unknown categories the first
two segments get verde and amarillo, which differ. -/
theorem claim_C9_amended_no_adjacent_color_witness :
    (assignColorsToSegments
      [{ text := "A", questions := [{ category := "A", payload := 0 }] },
       { text := "B", questions := [{ category := "B", payload := 1 }] },
       { text := "C", questions := [{ category := "C", payload := 2 }] },
       { text := "D", questions := [{ category := "D", payload := 3 }] }])[0]? =
      some { text := "A", color := "#5ACCC1",
             questions := [{ category := "A", payload := 0 }] } ∧
    (assignColorsToSegments
      [{ text := "A", questions := [{ category := "A", payload := 0 }] },
       { text := "B", questions := [{ category := "B", payload := 1 }] },
       { text := "C", questions := [{ category := "C", payload := 2 }] },
       { text := "D", questions := [{ category := "D", payload := 3 }] }])[1]? =
      some { text := "B", color := "#F2BD35",
             questions := [{ category := "B", payload := 1 }] } ∧
    ({ text := "A", color := "#5ACCC1",
       questions := [{ category := "A", payload := 0 }] : WheelSegment }).color ≠
      ({ text := "B", color := "#F2BD35",
         questions := [{ category := "B", payload := 1 }] : WheelSegment }).color :=
  ⟨rfl, rfl,
   claim_C9_amended_no_adjacent_color
     [{ text := "A", questions := [{ category := "A", payload := 0 }] },
      { text := "B", questions := [{ category := "B", payload := 1 }] },
      { text := "C", questions := [{ category := "C", payload := 2 }] },
      { text := "D", questions := [{ category := "D", payload := 3 }] }]
     (by rfl) 0 _ _ rfl rfl⟩

end Roulette

namespace Memo

/-- Game configuration of `MemoService` (memoService.ts). -/
structure GameConfig where
  totalPairs : ℤ
  requiredPairs : ℤ
  maxMoves : ℤ
  memorizationTime : ℤ
  gameTime : ℤ
  shuffleAnimationTime : ℤ
deriving Repr, DecidableEq

/-- Embedding of `DEFAULT_CONFIG` from memoService.ts. -/
def defaultConfig : GameConfig :=
  { totalPairs := 6
    requiredPairs := 2
    maxMoves := 3
    memorizationTime := 5
    gameTime := 120
    shuffleAnimationTime := 2 }

/-- Result of `MemoService.validateGameState`. -/
inductive ValidationReason where
  | maxMoves
  | timeUp
  | success
deriving Repr, DecidableEq

/-- Embedding of the `GameValidation` interface from memoService.ts. -/
structure GameValidation where
  hasWon : Bool
  hasFailed : Bool
  reason : Option ValidationReason
deriving Repr, DecidableEq

/-- Embedding of `MemoService.validateGameState` (memoService.ts): win if
the required pairs were found, otherwise lose on exhausted moves, then on
exhausted time, otherwise keep playing. -/
def validateGameState (cfg : GameConfig) (matchesFound movesUsed timeRemaining : ℤ) :
    GameValidation :=
  if cfg.requiredPairs ≤ matchesFound then
    { hasWon := true, hasFailed := false, reason := some .success }
  else if cfg.maxMoves ≤ movesUsed then
    { hasWon := false, hasFailed := true, reason := some .maxMoves }
  else if timeRemaining ≤ 0 then
    { hasWon := false, hasFailed := true, reason := some .timeUp }
  else
    { hasWon := false, hasFailed := false, reason := none }

/-- Embedding of `MemoService.calculateScore` (memoService.ts): base 1000,
a 100-point penalty per move beyond the first, plus twice the remaining
seconds, clamped at 0. -/
def calculateScore (cfg : GameConfig) (movesUsed timeElapsed : ℤ) : ℤ :=
  let baseScore : ℤ := 1000
  let movePenalty : ℤ := (movesUsed - 1) * 100
  let timeBonus : ℤ := max 0 (cfg.gameTime - timeElapsed) * 2
  max 0 (baseScore - movePenalty + timeBonus)

/-- Game phases of the memotest store (memoStore.ts `GameState`). -/
inductive GameState where
  | waiting
  | shuffling
  | memorizing
  | playing
  | success
  | failed
  | prize
deriving Repr, DecidableEq

/-- Embedding of the `MemoCard` record. -/
structure MemoCard where
  id : String
  value : String
  icon : String
  isFlipped : Bool
  isMatched : Bool
  position : ℤ
deriving Repr, DecidableEq

/-- Embedding of the `PrizeCard` record. -/
structure PrizeCard where
  id : String
  hasPrize : Bool
  isRevealed : Bool
  position : ℤ
deriving Repr, DecidableEq

/-- Embedding of the `GameStats` record of memoStore.ts; `bestScore` is
`number | null`. -/
structure GameStats where
  movesUsed : ℤ
  matchesFound : ℤ
  timeElapsed : ℤ
  score : ℤ
  bestScore : Option ℤ
deriving Repr, DecidableEq

/-- Embedding of the Zustand store state of memoStore.ts.  The JavaScript
object `cardsById : Record<string, MemoCard>` is an association list in
key-insertion order; `shakeCards : Set<string>` is a duplicate-free list
in insertion order. -/
structure MemoState where
  gameState : GameState
  cardsById : List (String × MemoCard)
  cardOrder : List String
  selectedCards : List String
  prizeCards : List PrizeCard
  shakeCards : List String
  stats : GameStats
  isProcessing : Bool
  showConfetti : Bool
  soundEnabled : Bool
deriving Repr, DecidableEq

/-- Lookup `record[key]` on a string-keyed JavaScript object. -/
def lookupKey (l : List (String × MemoCard)) (k : String) : Option MemoCard :=
  (l.find? (fun p => p.1 = k)).map (fun p => p.2)

/-- Spread-update `{...record, [key]: v}`: an existing key keeps its
position and gets the new value, an absent key is appended. -/
def updateKey (l : List (String × MemoCard)) (k : String) (v : MemoCard) :
    List (String × MemoCard) :=
  if l.any (fun p => p.1 = k) then
    l.map (fun p => if p.1 = k then (p.1, v) else p)
  else
    l ++ [(k, v)]

/-- Continuation of `flipCard` after the phase guards, on the result of the
card lookup: a missing, face-up or matched card is ignored; otherwise the
card is flipped, and on the second card of an attempt the store marks
processing and counts one move. -/
def flipCardWith (s : MemoState) (cardId : String) : Option MemoCard → MemoState
  | none => s
  | some card =>
    if card.isFlipped ∨ card.isMatched then s
    else
      let newSelectedCards := s.selectedCards ++ [cardId]
      let newCardsById := updateKey s.cardsById cardId { card with isFlipped := true }
      if newSelectedCards.length = 2 then
        { s with
          cardsById := newCardsById
          selectedCards := newSelectedCards
          isProcessing := true
          stats := { s.stats with movesUsed := s.stats.movesUsed + 1 } }
      else
        { s with cardsById := newCardsById, selectedCards := newSelectedCards }

/-- Embedding of `flipCard` from memoStore.ts lines 230-268: reject unless
the phase is `playing`, fewer than 2 cards are selected and no pair is
being processed, then dispatch on the card lookup. -/
def flipCard (s : MemoState) (cardId : String) : MemoState :=
  if s.gameState ≠ .playing ∨ 2 ≤ s.selectedCards.length ∨ s.isProcessing then s
  else flipCardWith s cardId (lookupKey s.cardsById cardId)

/-- Embedding of `handleMatchCheck` from memoStore.ts: mark both cards
matched, count one match, clear the selection and the processing flag. -/
def handleMatchCheck (s : MemoState) (firstCardId secondCardId : String) : MemoState :=
  match lookupKey s.cardsById firstCardId, lookupKey s.cardsById secondCardId with
  | some card1, some card2 =>
    { s with
      cardsById :=
        updateKey (updateKey s.cardsById firstCardId { card1 with isMatched := true })
          secondCardId { card2 with isMatched := true }
      stats := { s.stats with matchesFound := s.stats.matchesFound + 1 }
      selectedCards := []
      isProcessing := false }
  | _, _ => s

/-- Embedding of `handleNoMatch` from memoStore.ts: flip the selected cards
back down, clear the selection, stop processing, shake the two cards. -/
def handleNoMatch (s : MemoState) : MemoState :=
  let newCardsById := s.selectedCards.foldl
    (fun acc id =>
      match lookupKey acc id with
      | some card => updateKey acc id { card with isFlipped := false }
      | none => acc)
    s.cardsById
  { s with
    cardsById := newCardsById
    selectedCards := []
    isProcessing := false
    shakeCards := s.selectedCards.eraseDups }

/-- The JavaScript best-score update in `checkGameEnd`:
`!bestScore || score > bestScore ? score : bestScore` — `null` and `0`
are both falsy. -/
def jsBestUpdate (best : Option ℤ) (score : ℤ) : Option ℤ :=
  match best with
  | none => some score
  | some b => if b = 0 then some score else if b < score then some score else some b

/-- Embedding of `checkGameEnd` from memoStore.ts lines 359-388: validate
against the service; on a win compute the score, store it and update the
best score; on a loss only switch the phase. -/
def checkGameEnd (s : MemoState) (timeRemaining : ℤ) : MemoState :=
  let validation :=
    validateGameState defaultConfig s.stats.matchesFound s.stats.movesUsed timeRemaining
  if validation.hasWon then
    let score := calculateScore defaultConfig s.stats.movesUsed s.stats.timeElapsed
    { s with
      gameState := .success
      stats :=
        { s.stats with
          score := score
          bestScore := jsBestUpdate s.stats.bestScore score } }
  else if validation.hasFailed then
    { s with gameState := .failed }
  else
    s

/-- Claim C3: `validateGameState` declares a win exactly when the required
pairs were found; otherwise it declares a loss with reason `max_moves` when
moves are exhausted, else a loss with reason `time_up` when time is up,
else neither — win is checked before loss-by-moves, which is checked
before loss-by-time. -/
theorem claim_C3_validate_priority (cfg : GameConfig) (matchesFound movesUsed timeRemaining : ℤ) :
    ((validateGameState cfg matchesFound movesUsed timeRemaining).hasWon = true ↔
      cfg.requiredPairs ≤ matchesFound) ∧
    (matchesFound < cfg.requiredPairs → cfg.maxMoves ≤ movesUsed →
      validateGameState cfg matchesFound movesUsed timeRemaining =
        { hasWon := false, hasFailed := true, reason := some .maxMoves }) ∧
    (matchesFound < cfg.requiredPairs → movesUsed < cfg.maxMoves → timeRemaining ≤ 0 →
      validateGameState cfg matchesFound movesUsed timeRemaining =
        { hasWon := false, hasFailed := true, reason := some .timeUp }) ∧
    (matchesFound < cfg.requiredPairs → movesUsed < cfg.maxMoves → 0 < timeRemaining →
      validateGameState cfg matchesFound movesUsed timeRemaining =
        { hasWon := false, hasFailed := false, reason := none }) := by
  refine ⟨?_, ?_, ?_, ?_⟩
  · unfold validateGameState
    split_ifs with h1 h2 h3 <;> simp [h1]
  · intro hm hv
    unfold validateGameState
    rw [if_neg (by omega), if_pos hv]
  · intro hm hv ht
    unfold validateGameState
    rw [if_neg (by omega), if_neg (by omega), if_pos ht]
  · intro hm hv ht
    unfold validateGameState
    rw [if_neg (by omega), if_neg (by omega), if_neg (by omega)]

/-- Witness for C3 at the default configuration (requiredPairs 2, maxMoves
3): a win, a loss by moves, a loss by time, and a continuing game. -/
theorem claim_C3_validate_priority_witness :
    (validateGameState defaultConfig 2 0 50).hasWon = true ∧
    validateGameState defaultConfig 1 3 50 =
      { hasWon := false, hasFailed := true, reason := some .maxMoves } ∧
    validateGameState defaultConfig 1 2 0 =
      { hasWon := false, hasFailed := true, reason := some .timeUp } ∧
    validateGameState defaultConfig 1 2 50 =
      { hasWon := false, hasFailed := false, reason := none } :=
  ⟨(claim_C3_validate_priority defaultConfig 2 0 50).1.mpr (by decide),
   (claim_C3_validate_priority defaultConfig 1 3 50).2.1 (by decide) (by decide),
   (claim_C3_validate_priority defaultConfig 1 2 0).2.2.1 (by decide) (by decide) (by decide),
   (claim_C3_validate_priority defaultConfig 1 2 50).2.2.2 (by decide) (by decide) (by decide)⟩

/-- Claim C4: `flipCard` is a silent no-op — the whole store state is
returned unchanged — whenever the phase is not `playing`, or two cards are
already selected, or a pair is being processed, or the card id does not
exist, or the target card is already face-up or already matched. -/
theorem claim_C4_flipCard_noop (s : MemoState) (cardId : String)
    (h : s.gameState ≠ .playing ∨ 2 ≤ s.selectedCards.length ∨ s.isProcessing = true ∨
      lookupKey s.cardsById cardId = none ∨
      (∃ c, lookupKey s.cardsById cardId = some c ∧
        (c.isFlipped = true ∨ c.isMatched = true))) :
    flipCard s cardId = s := by
  unfold flipCard
  by_cases hg : s.gameState ≠ .playing ∨ 2 ≤ s.selectedCards.length ∨ s.isProcessing
  · rw [if_pos hg]
  · rw [if_neg hg]
    push_neg at hg
    rcases h with h | h | h | h | ⟨c, hc, hcf⟩
    · exact absurd hg.1 h
    · omega
    · exact absurd h (by simpa using hg.2.2)
    · rw [h]
      rfl
    · rw [hc]
      have hor : c.isFlipped ∨ c.isMatched := by
        rcases hcf with h1 | h1
        · exact Or.inl (by simp [h1])
        · exact Or.inr (by simp [h1])
      simp only [flipCardWith, if_pos hor]

/-- Witness for C4: flipping while the phase is `waiting` changes nothing. -/
theorem claim_C4_flipCard_noop_witness :
    flipCard
      { gameState := .waiting
        cardsById := []
        cardOrder := []
        selectedCards := []
        prizeCards := []
        shakeCards := []
        stats := { movesUsed := 0, matchesFound := 0, timeElapsed := 0, score := 0,
                   bestScore := none }
        isProcessing := false
        showConfetti := false
        soundEnabled := true } "card-0-0" =
      { gameState := .waiting
        cardsById := []
        cardOrder := []
        selectedCards := []
        prizeCards := []
        shakeCards := []
        stats := { movesUsed := 0, matchesFound := 0, timeElapsed := 0, score := 0,
                   bestScore := none }
        isProcessing := false
        showConfetti := false
        soundEnabled := true } :=
  claim_C4_flipCard_noop _ _ (Or.inl (by decide))

theorem flipCard_movesUsed_characterization (s : MemoState) (cardId : String) :
    (flipCard s cardId).stats.movesUsed =
      (if s.gameState = .playing ∧ s.selectedCards.length = 1 ∧ s.isProcessing = false ∧
          (∃ c, lookupKey s.cardsById cardId = some c ∧
            c.isFlipped = false ∧ c.isMatched = false)
       then s.stats.movesUsed + 1 else s.stats.movesUsed) := by
  unfold flipCard
  by_cases hg : s.gameState ≠ .playing ∨ 2 ≤ s.selectedCards.length ∨ s.isProcessing
  · rw [if_pos hg]
    rw [if_neg ?_]
    rintro ⟨h1, h2, h3, -⟩
    rcases hg with hg | hg | hg
    · exact hg h1
    · omega
    · simp [hg] at h3
  · rw [if_neg hg]
    push_neg at hg
    obtain ⟨hplay, hlen, hproc⟩ := hg
    rcases hlook : lookupKey s.cardsById cardId with _ | c
    · rw [if_neg ?_]
      · simp only [flipCardWith]
      · rintro ⟨-, -, -, c, hc, -⟩
        exact Option.noConfusion hc
    · simp only [flipCardWith]
      by_cases hflip : c.isFlipped = true ∨ c.isMatched = true
      · rw [if_pos hflip, if_neg ?_]
        rintro ⟨-, -, -, c2, hc2, hf2, hm2⟩
        cases hc2
        rcases hflip with h | h
        · rw [hf2] at h
          exact Bool.noConfusion h
        · rw [hm2] at h
          exact Bool.noConfusion h
      · rw [if_neg hflip]
        push_neg at hflip
        by_cases h2 : (s.selectedCards ++ [cardId]).length = 2
        · rw [if_pos h2, if_pos ?_]
          refine ⟨hplay, ?_, by simpa using hproc, c, rfl, by simpa using hflip.1,
            by simpa using hflip.2⟩
          simp only [List.length_append, List.length_cons, List.length_nil] at h2
          omega
        · rw [if_neg h2, if_neg ?_]
          rintro ⟨-, hlen1, -, -⟩
          simp only [List.length_append, List.length_cons, List.length_nil] at h2
          omega

/-- Claim C5: `movesUsed` counts completed 2-card attempts — a flip that is
rejected or that selects the first card of an attempt leaves it unchanged,
the flip that selects the second card increments it by exactly 1 (whether
the pair matches or not: neither `handleMatchCheck` nor `handleNoMatch`
touches it). -/
theorem claim_C5_movesUsed_per_attempt :
    (∀ (s : MemoState) (cardId : String), s.selectedCards.length ≠ 1 →
      (flipCard s cardId).stats.movesUsed = s.stats.movesUsed) ∧
    (∀ (s : MemoState) (cardId : String) (c : MemoCard),
      s.gameState = .playing → s.selectedCards.length = 1 → s.isProcessing = false →
      lookupKey s.cardsById cardId = some c → c.isFlipped = false → c.isMatched = false →
      (flipCard s cardId).stats.movesUsed = s.stats.movesUsed + 1) ∧
    (∀ (s : MemoState) (firstCardId secondCardId : String),
      (handleMatchCheck s firstCardId secondCardId).stats.movesUsed = s.stats.movesUsed) ∧
    (∀ s : MemoState, (handleNoMatch s).stats.movesUsed = s.stats.movesUsed) := by
  refine ⟨?_, ?_, ?_, ?_⟩
  · intro s cardId hlen
    rw [flipCard_movesUsed_characterization, if_neg]
    rintro ⟨-, h1, -⟩
    exact hlen h1
  · intro s cardId c h1 h2 h3 h4 h5 h6
    rw [flipCard_movesUsed_characterization, if_pos ⟨h1, h2, h3, c, h4, h5, h6⟩]
  · intro s a b
    unfold handleMatchCheck
    rcases lookupKey s.cardsById a with _ | c1 <;> rcases lookupKey s.cardsById b with _ | c2 <;>
      rfl
  · intro s
    unfold handleNoMatch
    rfl

/-- Witness for C5: in a playing state with one card already selected,
flipping a fresh card counts exactly one move; with no card selected it
counts none. -/
theorem claim_C5_movesUsed_per_attempt_witness :
    (flipCard
      { gameState := .playing
        cardsById := [("a", { id := "a", value := "v0", icon := "i", isFlipped := true,
                              isMatched := false, position := 0 }),
                      ("b", { id := "b", value := "v0", icon := "i", isFlipped := false,
                              isMatched := false, position := 1 })]
        cardOrder := ["a", "b"]
        selectedCards := ["a"]
        prizeCards := []
        shakeCards := []
        stats := { movesUsed := 4, matchesFound := 0, timeElapsed := 7, score := 0,
                   bestScore := none }
        isProcessing := false
        showConfetti := false
        soundEnabled := true } "b").stats.movesUsed = 5 ∧
    (flipCard
      { gameState := .playing
        cardsById := [("b", { id := "b", value := "v0", icon := "i", isFlipped := false,
                              isMatched := false, position := 1 })]
        cardOrder := ["b"]
        selectedCards := []
        prizeCards := []
        shakeCards := []
        stats := { movesUsed := 4, matchesFound := 0, timeElapsed := 7, score := 0,
                   bestScore := none }
        isProcessing := false
        showConfetti := false
        soundEnabled := true } "b").stats.movesUsed = 4 :=
  ⟨claim_C5_movesUsed_per_attempt.2.1 _ "b"
      { id := "b", value := "v0", icon := "i", isFlipped := false, isMatched := false,
        position := 1 }
      rfl (by decide) rfl (by decide) rfl rfl,
   claim_C5_movesUsed_per_attempt.1 _ "b" (by decide)⟩

/-- Claim C6: for moves ≥ 1 and elapsed time within the 120-second game,
`calculateScore` is `max 0 (1000 - 100*(moves-1) + 2*secondsRemaining)`,
and the best score stored by `checkGameEnd` on a win is replaced by the
new score exactly when the new score is strictly greater (a missing best
score is always replaced; scores are never negative). -/
theorem claim_C6_score_and_best :
    (∀ movesUsed timeElapsed : ℤ, 1 ≤ movesUsed → 0 ≤ timeElapsed → timeElapsed ≤ 120 →
      calculateScore defaultConfig movesUsed timeElapsed =
        max 0 (1000 - 100 * (movesUsed - 1) + 2 * (120 - timeElapsed))) ∧
    (∀ score : ℤ, jsBestUpdate none score = some score) ∧
    (∀ prev score : ℤ, 0 ≤ prev → 0 ≤ score →
      jsBestUpdate (some prev) score = if prev < score then some score else some prev) ∧
    (∀ (s : MemoState) (timeRemaining : ℤ),
      defaultConfig.requiredPairs ≤ s.stats.matchesFound →
      (checkGameEnd s timeRemaining).stats.bestScore =
        jsBestUpdate s.stats.bestScore
          (calculateScore defaultConfig s.stats.movesUsed s.stats.timeElapsed)) ∧
    (∀ movesUsed timeElapsed : ℤ, 0 ≤ calculateScore defaultConfig movesUsed timeElapsed) := by
  refine ⟨?_, ?_, ?_, ?_, ?_⟩
  · intro m t h1 h2 h3
    unfold calculateScore defaultConfig
    simp only
    omega
  · intro score
    rfl
  · intro prev score hp hs
    by_cases h1 : prev = 0
    · subst h1
      by_cases h2 : (0:ℤ) < score
      · simp [jsBestUpdate, h2]
      · have hz : score = 0 := by omega
        subst hz
        simp [jsBestUpdate]
    · simp [jsBestUpdate, h1]
  · intro s tr h
    unfold checkGameEnd validateGameState
    rw [if_pos h]
    simp
  · intro m t
    unfold calculateScore
    simp only
    omega

/-- Witness for C6: two moves with 20 seconds elapsed score
1000 - 100 + 200 = 1100; a previous best of 900 is beaten by 1100 but a
previous best of 1200 is kept; a winning state stores the best through
`jsBestUpdate`. -/
theorem claim_C6_score_and_best_witness :
    calculateScore defaultConfig 2 20 = max 0 (1000 - 100 * (2 - 1) + 2 * (120 - 20)) ∧
    jsBestUpdate (some 900) 1100 = (if (900:ℤ) < 1100 then some 1100 else some 900) ∧
    jsBestUpdate (some 1200) 1100 = (if (1200:ℤ) < 1100 then some 1100 else some 1200) ∧
    (checkGameEnd
      { gameState := .playing
        cardsById := []
        cardOrder := []
        selectedCards := []
        prizeCards := []
        shakeCards := []
        stats := { movesUsed := 2, matchesFound := 2, timeElapsed := 20, score := 0,
                   bestScore := some 900 }
        isProcessing := false
        showConfetti := false
        soundEnabled := true } 100).stats.bestScore =
      jsBestUpdate (some 900) (calculateScore defaultConfig 2 20) :=
  ⟨claim_C6_score_and_best.1 2 20 (by decide) (by decide) (by decide),
   claim_C6_score_and_best.2.2.1 900 1100 (by decide) (by decide),
   claim_C6_score_and_best.2.2.1 1200 1100 (by decide) (by decide),
   claim_C6_score_and_best.2.2.2.1 _ 100 (by decide)⟩

end Memo

namespace Clock

/-!
Embedding of `ClockService.start` from
`src/apps/memotest/src/services/game/clockService.ts` lines 22-56.
`start(seconds, onTick)` emits `onTick(seconds)` immediately; every later
`setInterval` callback recomputes the elapsed wall-clock time
`Math.floor((Date.now() - startTime) / 1000)`, emits
`max(0, duration - elapsed)` and, on emitting 0, calls `stop()`, which
clears the interval and the callback so nothing fires afterwards.  The
interval callbacks are modelled by the list of their wall-clock
timestamps in milliseconds since `startTime` (non-decreasing, since wall
time is monotone); the trace is the list of values passed to `onTick`.
-/

/-- The values emitted by the interval callbacks at the given timestamps:
each tick emits `max 0 (duration - floor(tMs / 1000))` and the run ends
right after the first 0 is emitted (the `stop()` inside the callback). -/
def clockRun (d : ℤ) : List ℕ → List ℤ
  | [] => []
  | t :: rest =>
    let timeLeft : ℤ := max 0 (d - ((t / 1000 : ℕ) : ℤ))
    if timeLeft = 0 then [timeLeft] else timeLeft :: clockRun d rest

/-- All values passed to `onTick` in one `start(d, onTick)` run observed
through the interval timestamps `ticks`: the immediate initial emission
of `d` followed by the interval emissions. -/
def clockTrace (d : ℤ) (ticks : List ℕ) : List ℤ := d :: clockRun d ticks

theorem clockRun_chain (d : ℤ) :
    ∀ (ticks : List ℕ), List.Chain' (· ≤ ·) ticks →
      ∀ x : ℤ, (∀ t, ticks[0]? = some t → max 0 (d - ((t / 1000 : ℕ) : ℤ)) ≤ x) →
      List.Chain' (fun a b : ℤ => b ≤ a) (x :: clockRun d ticks) := by
  intro ticks
  induction ticks with
  | nil =>
    intro _ x _
    simp [clockRun]
  | cons t rest ih =>
    intro hchain x hx
    have hxt : max 0 (d - ((t / 1000 : ℕ) : ℤ)) ≤ x :=
      hx t List.getElem?_cons_zero
    obtain ⟨hhead, htail⟩ := List.chain'_cons'.mp hchain
    show List.Chain' (fun a b : ℤ => b ≤ a)
      (x :: if max 0 (d - ((t / 1000 : ℕ) : ℤ)) = 0 then
        [max 0 (d - ((t / 1000 : ℕ) : ℤ))]
      else max 0 (d - ((t / 1000 : ℕ) : ℤ)) :: clockRun d rest)
    by_cases hv : max 0 (d - ((t / 1000 : ℕ) : ℤ)) = 0
    · rw [if_pos hv]
      rw [List.chain'_cons]
      exact ⟨hxt, List.chain'_singleton _⟩
    · rw [if_neg hv]
      rw [List.chain'_cons]
      refine ⟨hxt, ih htail _ ?_⟩
      intro t2 ht2
      have htle : t ≤ t2 := by
        apply hhead
        cases rest with
        | nil => exact Option.noConfusion ht2
        | cons a l =>
          rw [List.getElem?_cons_zero] at ht2
          cases ht2
          rfl
      have hdiv : (t / 1000 : ℕ) ≤ t2 / 1000 := Nat.div_le_div_right htle
      apply max_le (le_max_left 0 _)
      refine le_trans ?_ (le_max_right 0 (d - ((t / 1000 : ℕ) : ℤ)))
      omega

theorem clockRun_zero_once (d : ℤ) :
    ∀ ticks : List ℕ, (∃ t ∈ ticks, d ≤ ((t / 1000 : ℕ) : ℤ)) →
      (clockRun d ticks).count 0 = 1 ∧ (clockRun d ticks).getLast? = some 0 := by
  intro ticks
  induction ticks with
  | nil =>
    rintro ⟨t, ht, -⟩
    exact absurd ht (List.not_mem_nil t)
  | cons t rest ih =>
    rintro ⟨t0, ht0, hle⟩
    show ((if max 0 (d - ((t / 1000 : ℕ) : ℤ)) = 0 then
        [max 0 (d - ((t / 1000 : ℕ) : ℤ))]
      else max 0 (d - ((t / 1000 : ℕ) : ℤ)) :: clockRun d rest).count 0 = 1 ∧
      (if max 0 (d - ((t / 1000 : ℕ) : ℤ)) = 0 then
        [max 0 (d - ((t / 1000 : ℕ) : ℤ))]
      else max 0 (d - ((t / 1000 : ℕ) : ℤ)) :: clockRun d rest).getLast? = some 0)
    by_cases hv : max 0 (d - ((t / 1000 : ℕ) : ℤ)) = 0
    · rw [if_pos hv, hv]
      constructor
      · rfl
      · rfl
    · rw [if_neg hv]
      have ht0r : t0 ∈ rest := by
        rcases List.mem_cons.mp ht0 with rfl | h
        · exfalso
          apply hv
          have hle2 : d - ((t0 / 1000 : ℕ) : ℤ) ≤ 0 := by omega
          exact max_eq_left hle2
        · exact h
      obtain ⟨hcount, hlast⟩ := ih ⟨t0, ht0r, hle⟩
      constructor
      · rw [List.count_cons, hcount, if_neg ?_]
        simp only [beq_iff_eq]
        exact hv
      · cases hrun : clockRun d rest with
        | nil =>
          rw [hrun] at hcount
          simp at hcount
        | cons a l =>
          rw [List.getLast?_cons_cons]
          rw [← hrun, hlast]

/-- Claim C10 counterexample: `start(0, cb)` calls `cb(0)` immediately,
and the first interval callback (at wall time 1000 ms) computes
`max(0, 0 - 1) = 0`, calls `cb(0)` AGAIN and only then stops — for
`durationSec = 0` the value 0 is passed to `onTick` twice, not exactly
once. -/
theorem claim_C10_counterexample :
    clockTrace 0 [1000] = [0, 0] ∧ (clockTrace 0 [1000]).count 0 = 2 := by
  constructor
  · rfl
  · rfl

/-- Claim C10 as amended: for every run, the values passed to `onTick`
are monotonically non-increasing (for all `durationSec ≥ 0` and monotone
wall-clock timestamps); and for `durationSec ≥ 1` — not 0, where the
initial immediate emission already equals 0 and 0 is emitted twice —
once some interval tick reaches the full duration, `onTick(0)` fires
exactly once and is the last emission (the clock auto-stops). -/
theorem claim_C10_amended_clock :
    (∀ (d : ℤ) (ticks : List ℕ), 0 ≤ d → List.Chain' (· ≤ ·) ticks →
      List.Chain' (fun a b : ℤ => b ≤ a) (clockTrace d ticks)) ∧
    (∀ (d : ℤ) (ticks : List ℕ), 1 ≤ d →
      (∃ t ∈ ticks, d ≤ ((t / 1000 : ℕ) : ℤ)) →
      (clockTrace d ticks).count 0 = 1 ∧ (clockTrace d ticks).getLast? = some 0) := by
  constructor
  · intro d ticks hd hchain
    exact clockRun_chain d ticks hchain d (by intro t _; omega)
  · intro d ticks hd hex
    obtain ⟨hcount, hlast⟩ := clockRun_zero_once d ticks hex
    constructor
    · show (d :: clockRun d ticks).count 0 = 1
      rw [List.count_cons, hcount, if_neg ?_]
      simp only [beq_iff_eq]
      omega
    · show (d :: clockRun d ticks).getLast? = some 0
      cases hrun : clockRun d ticks with
      | nil =>
        rw [hrun] at hcount
        simp at hcount
      | cons a l =>
        rw [List.getLast?_cons_cons]
        rw [← hrun, hlast]

/-- Witness for the amended C10: a 2-second countdown observed at wall
times 1000 ms and 2000 ms emits 2, 1, 0 — non-increasing, with exactly
one 0 as the final emission. -/
theorem claim_C10_amended_clock_witness :
    List.Chain' (fun a b : ℤ => b ≤ a) (clockTrace 2 [1000, 2000]) ∧
    (clockTrace 2 [1000, 2000]).count 0 = 1 ∧
    (clockTrace 2 [1000, 2000]).getLast? = some 0 :=
  ⟨claim_C10_amended_clock.1 2 [1000, 2000] (by decide)
      (by
        rw [List.chain'_cons]
        exact ⟨by decide, List.chain'_singleton _⟩),
   (claim_C10_amended_clock.2 2 [1000, 2000] (by decide)
      ⟨2000, by decide, by decide⟩).1,
   (claim_C10_amended_clock.2 2 [1000, 2000] (by decide)
      ⟨2000, by decide, by decide⟩).2⟩

end Clock
